import Mathlib

/-!
# Verification of `rhydrator`

A shallow embedding of the core of the `rhydrator` repository
(`src/rhydrator/layoutviz.py` and `src/rhydrator/rhydrator.py`) together
with proofs about the embedded code.

Conventions of the embedding:
* Python `list`s become Lean `List`s; `list.append` becomes `++ [x]`,
  `list.pop()` becomes `List.dropLast` (the stack top lives at the end of
  the list, as in Python).
* Python `dict`s (insertion ordered, unique keys) become association lists
  `List (κ × ν)`; a fresh key is appended at the end, `List.lookup` finds
  the entry, and in-place mutation of a value becomes an update of the
  entry in the association list.  Shared mutable node objects of
  `rhydrator.py` are represented by keeping every node in one id-keyed
  association list (the heap) and storing child references as ids.
* `raise`/`assert` become `Except`: each Python exception that the code
  can raise is one constructor of an error type.
* Strings that the external `rootfilespec` package hands over already
  decoded (`RString.fString.decode()`, `repr(ColumnType...)`) are
  modelled as plain `String` fields holding the decoded text.
-/

/-! ## layoutviz.py : data model -/

/-- Event kind: `"O"` (open) or `"C"` (close). -/
inductive EventType where
  | O
  | C
deriving DecidableEq, Repr

/-- `class Frame(TypedDict)` of layoutviz.py. -/
structure Frame where
  name : String
  file : Option String
  line : Option Nat
  col : Option Nat
deriving DecidableEq, Repr

/-- `class Event(TypedDict)` of layoutviz.py: open/close event, frame index,
offset in file. -/
structure Event where
  type : EventType
  frame : Nat
  at_ : Nat
deriving DecidableEq, Repr

/-- `class Span(TypedDict)` of layoutviz.py: byte range plus the snapshot of
the frame stack at recording time. -/
structure Span where
  offset : Nat
  size : Nat
  stack : List Nat
deriving DecidableEq, Repr

/-- `@dataclass class ProfileBulder` of layoutviz.py (sic). -/
structure ProfileBulder where
  frames : List Frame := []
  spans : List Span := []
  stack : List Nat := []
  shared_frames : List ((String × Option String) × Nat) := []
deriving DecidableEq, Repr

/-- `ProfileBulder.push_frame`. -/
def push_frame (b : ProfileBulder) (frame : Frame) : ProfileBulder :=
  { b with frames := b.frames ++ [frame], stack := b.stack ++ [b.frames.length] }

/-- `ProfileBulder.pop_frame`. -/
def pop_frame (b : ProfileBulder) : ProfileBulder :=
  { b with stack := b.stack.dropLast }

/-- `ProfileBulder.shared_frame_id`: get or create a frame id for the given
shared frame, interning by the `(name, file)` pair. -/
def shared_frame_id (b : ProfileBulder) (name : String) (file : Option String) :
    Nat × ProfileBulder :=
  match List.lookup (name, file) b.shared_frames with
  | some i => (i, b)
  | none =>
      let frame : Frame := { name := name, file := file, line := none, col := none }
      (b.frames.length,
        { b with
          frames := b.frames ++ [frame],
          shared_frames := b.shared_frames ++ [((name, file), b.frames.length)] })

/-- `ProfileBulder.push_shared_frame`. -/
def push_shared_frame (b : ProfileBulder) (name : String)
    (file : Option String := none) : ProfileBulder :=
  let r := shared_frame_id b name file
  { r.2 with stack := r.2.stack ++ [r.1] }

/-- `ProfileBulder.add_span`: push a shared leaf frame for `name`, record the
span with a copy of the current stack, then pop the leaf again. -/
def add_span (b : ProfileBulder) (name : String) (offset size : Nat) :
    ProfileBulder :=
  let b' := push_shared_frame b name
  let b'' := { b' with spans := b'.spans ++ [(⟨offset, size, b'.stack⟩ : Span)] }
  { b'' with stack := b''.stack.dropLast }

/-! ## layoutviz.py : render -/

/-- The exceptions `ProfileBulder.render` can raise: the entry assertion
`Profile stack is not empty`, the overlapping-span `ValueError`, and the two
postcondition assertions (out-of-order events / unmatched open-close). -/
inductive RenderError where
  | ProfileStackNotEmpty
  | OverlapViolation
  | EventsOutOfOrder
  | ImbalancedStack
deriving DecidableEq, Repr

/-- The loop state of `render`: emitted events, currently open stack, end of
the last span (`last_span_end`), and diagnostic gaps. -/
structure RenderState where
  events : List Event
  stack : List Nat
  last_span_end : Nat
  gaps : List (Nat × Nat)
deriving DecidableEq, Repr

/-- Index of the first position where the two zipped lists differ, if any:
Python's `min(common)` for
`common = [i for i, (l, r) in enumerate(zip(stack, span.stack])) if l != r]`. -/
def firstDiff : List Nat → List Nat → Option Nat
  | x :: xs, y :: ys =>
      if x ≠ y then some 0 else (firstDiff xs ys).map (· + 1)
  | _, _ => none

/-- `icommon` of `render`: the first index at which the open stack and the
span's stack diverge; when neither diverges within the zip the last frame of
the open stack is closed anyway (`len(stack) - 1`). -/
def commonIndex (stack sstack : List Nat) : Nat :=
  match firstDiff stack sstack with
  | some i => i
  | none => stack.length - 1

/-- One iteration of the `for span in sorted(...)` loop of `render`. -/
def renderStep (st : RenderState) (span : Span) : Except RenderError RenderState :=
  if span.offset < st.last_span_end then
    Except.error RenderError.OverlapViolation
  else
    let gaps :=
      if st.last_span_end < span.offset then
        st.gaps ++ [(st.last_span_end, span.offset - st.last_span_end)]
      else st.gaps
    if st.stack = [] then
      Except.ok
        { events := st.events ++ span.stack.map (fun f => ⟨EventType.O, f, span.offset⟩),
          stack := span.stack,
          last_span_end := span.offset + span.size,
          gaps := gaps }
    else
      let i := commonIndex st.stack span.stack
      let closing := st.stack.drop i
      let opening := span.stack.drop i
      Except.ok
        { events := st.events
            ++ closing.reverse.map (fun f => ⟨EventType.C, f, st.last_span_end⟩)
            ++ opening.map (fun f => ⟨EventType.O, f, span.offset⟩),
          stack := st.stack.take i ++ opening,
          last_span_end := span.offset + span.size,
          gaps := gaps }

/-- The final post-loop check of `render`: every event offset is at least the
running maximum of the previous offsets (`assert event["at"] >= offset`). -/
def eventsOrdered : Nat → List Event → Bool
  | _, [] => true
  | off, e :: rest => decide (off ≤ e.at_) && eventsOrdered (max off e.at_) rest

/-- Number of `"O"` events (`opened` counter of `render`). -/
def countOpens (events : List Event) : Nat :=
  (events.filter (fun e => e.type == EventType.O)).length

/-- Number of `"C"` events (`closed` counter of `render`). -/
def countCloses (events : List Event) : Nat :=
  (events.filter (fun e => e.type == EventType.C)).length

/-- The dictionary `render` returns, flattened: the shared frame table
(`shared.frames`), and the single evented profile with its constant metadata
and the event list.  The constant strings (`$schema`, `exporter`) carry no
information and are omitted. -/
structure Profile where
  frames : List Frame
  ptype : String
  name : String
  unit : String
  startValue : Nat
  endValue : Nat
  events : List Event
deriving DecidableEq, Repr

/-- Insert a span into an offset-sorted accumulator after every span with an
offset less than or equal to its own. -/
def insertSpan (s : Span) : List Span → List Span
  | [] => [s]
  | t :: ts => if t.offset ≤ s.offset then t :: insertSpan s ts else s :: t :: ts

/-- `sorted(self.spans, key=lambda s: s["offset"])`: Python's `sorted` is a
stable ascending sort by the key, which is exactly what inserting the spans
left to right with `insertSpan` computes (a later span is placed after every
earlier span of equal offset). -/
def sortedSpans (b : ProfileBulder) : List Span :=
  b.spans.foldl (fun acc s => insertSpan s acc) []

/-- The full event list after the loop: the loop's events followed by a
close, innermost first, for every frame still on the open stack, at
`last_span_end` (the `events.extend(... for frame in reversed(stack))` after
the loop). -/
def renderEvents (final : RenderState) : List Event :=
  final.events
    ++ final.stack.reverse.map (fun f => ⟨EventType.C, f, final.last_span_end⟩)

/-- `ProfileBulder.render`. -/
def render (b : ProfileBulder) (endValue : Nat) : Except RenderError Profile :=
  if b.stack ≠ [] then Except.error RenderError.ProfileStackNotEmpty
  else
    match (sortedSpans b).foldlM renderStep ⟨[], [], 0, []⟩ with
    | Except.error e => Except.error e
    | Except.ok final =>
        if ¬ eventsOrdered 0 (renderEvents final) then
          Except.error RenderError.EventsOutOfOrder
        else if countOpens (renderEvents final) ≠ countCloses (renderEvents final) then
          Except.error RenderError.ImbalancedStack
        else
          Except.ok
            { frames := b.frames,
              ptype := "evented",
              name := "RNTuple File Layout",
              unit := "bytes",
              startValue := 0,
              endValue := endValue,
              events := renderEvents final }

/-! ## layoutviz.py : replay semantics used to state the round-trip claim -/

/-- Replaying one event against a stack: an Open pushes its frame, a Close
pops the top. -/
def replayStep (st : List Nat) (e : Event) : List Nat :=
  match e.type with
  | EventType.O => st ++ [e.frame]
  | EventType.C => st.dropLast

/-- The stack obtained by replaying an event list from the empty stack. -/
def replayStack (events : List Event) : List Nat :=
  events.foldl replayStep []

/-- The event list `evs` reproduces the span `s`: at some cut point `k` the
replayed stack is exactly the recorded snapshot, every event before the cut
sits at or before `s.offset`, and every event from the cut on sits at or
after `s.offset + s.size` — i.e. the snapshot is the open stack exactly on
the recorded `[offset, offset + size)` extent. -/
def Reproduced (evs : List Event) (s : Span) : Prop :=
  ∃ k ∈ List.range (evs.length + 1),
    replayStack (evs.take k) = s.stack ∧
    (∀ e ∈ evs.take k, e.at_ ≤ s.offset) ∧
    (∀ e ∈ evs.drop k, s.offset + s.size ≤ e.at_)

instance (evs : List Event) (s : Span) : Decidable (Reproduced evs s) :=
  inferInstanceAs (Decidable (∃ k ∈ List.range (evs.length + 1),
    replayStack (evs.take k) = s.stack ∧
    (∀ e ∈ evs.take k, e.at_ ≤ s.offset) ∧
    (∀ e ∈ evs.drop k, s.offset + s.size ≤ e.at_)))

/-- The spans are pairwise non-overlapping in their `[offset, offset+size)`
ranges. -/
def SpansDisjoint (l : List Span) : Prop :=
  List.Pairwise (fun s t => s.offset + s.size ≤ t.offset ∨ t.offset + t.size ≤ s.offset) l

instance (l : List Span) : Decidable (SpansDisjoint l) :=
  inferInstanceAs (Decidable (List.Pairwise
    (fun s t : Span => s.offset + s.size ≤ t.offset ∨ t.offset + t.size ≤ s.offset) l))

/-- Side condition for the round-trip law: between consecutive spans (in
ascending offset order) the later stack snapshot never drops more than the
leaf of the earlier snapshot, i.e. whenever the later snapshot is a prefix
of the earlier one it is shorter by at most one frame. -/
def NoDeepPrefixDrop (l : List Span) : Prop :=
  List.Chain' (fun s t => t.stack.isPrefixOf s.stack → s.stack.length ≤ t.stack.length + 1) l

/-! ## rhydrator.py : data model -/

/-- The exceptions the tree/mapping code of rhydrator.py can raise, named
after the error taxonomy of the design:
* `OrderViolation` — `ValueError` "Parent ID ... not found" in `get_field_tree`;
* `StructuralInconsistency` — `ValueError` "Field ID not found in field tree"
  (columns and alias columns) and "Column ID not found in page locations";
* `MalformedFlags` — `ValueError` "deferred flag set but fFirstElementIndex is
  None" in `decode_column_flags`;
* `UnsupportedLayout` — `NotImplementedError` for multiple page-list envelopes;
* `IndexOutOfRange` — the Python `IndexError` that
  `page_locations[cluster_id]` would raise if the envelope carried fewer
  per-cluster page-location lists than cluster summaries. -/
inductive RhyError where
  | OrderViolation
  | StructuralInconsistency
  | MalformedFlags
  | UnsupportedLayout
  | IndexOutOfRange
deriving DecidableEq, Repr

/-- The fields of the external `rootfilespec` `FieldDescription` that
rhydrator.py reads.  The `RString` values are modelled as already decoded
strings; `fStructuralRole` is kept as the raw code (the source maps it to a
display name through the external `FIELD_STRUCTURAL_ROLES` table of
`rootfilespec`, an excluded collaborator). -/
structure FieldDescription where
  fFieldName : String
  fTypeName : String
  fTypeAlias : String
  fFieldDescription : String
  fParentFieldID : Nat
  fStructuralRole : Nat
  fFlags : Nat
  fArraySize : Nat
  fSourceFieldID : Nat
  fTypeChecksum : Nat
deriving DecidableEq, Repr

/-- The fields of the external `ColumnDescription` that rhydrator.py reads.
`fColumnType` holds the Python `repr` of the column-type enum value (e.g.
`"ColumnType.kReal32"`). -/
structure ColumnDescription where
  fColumnType : String
  fFieldID : Nat
  fFlags : Nat
  fFirstElementIndex : Option Int
  fMinValue : Option Int
  fMaxValue : Option Int
  fRepresentationIndex : Nat
deriving DecidableEq, Repr

/-- The fields of the external `AliasColumnDescription` that rhydrator.py
reads. -/
structure AliasColumnDescription where
  fPhysicalColumnID : Nat
  fFieldID : Nat
deriving DecidableEq, Repr

/-- A page location of a page-list envelope: the locator `(offset, size)`
plus the element count, as read by the (commented diagnostic) consumers. -/
structure RPageDescription where
  offset : Nat
  size : Nat
  fNElements : Nat
deriving DecidableEq, Repr

/-- One `clusterSummaries` entry of a page-list envelope. -/
structure ClusterSummary where
  fFirstEntryNumber : Nat
  fNEntries : Nat
  fFeatureFlag : Nat
deriving DecidableEq, Repr

/-- A page-list envelope: cluster summaries plus the page locations indexed
`[cluster][column][page]` (`page_list.items` flattened into the page list). -/
structure PageListEnvelope where
  clusterSummaries : List ClusterSummary
  pageLocations : List (List (List RPageDescription))
deriving DecidableEq, Repr

/-- The parts of the external `SchemaDescription` that
`get_field_to_page_map` reads (`extraTypeInformations` is read into a local
variable but never used by the live code, so it is omitted here). -/
structure SchemaDescription where
  fieldDescriptions : List FieldDescription
  columnDescriptions : List ColumnDescription
  aliasColumnDescriptions : List AliasColumnDescription
deriving DecidableEq, Repr

/-- The per-cluster page dict stored under `column_id_to_pages[column][cluster]`. -/
structure ClusterInfo where
  cluster_firstEntryNumber : Nat
  cluster_nEntries : Nat
  cluster_feature_flag : Nat
  pages : List RPageDescription
deriving DecidableEq, Repr

/-- The column info dict appended to a node's `"columns"` list by
`map_columns_to_fields`, including the `"cluster_info"` dict that
`map_pages_to_columns_to_fields` adds later (`[]` models the key being
absent, which is its state until page mapping runs). -/
structure ColumnInfo where
  column_id : Nat
  type : String
  flags : String
  rep_index : Nat
  cluster_info : List (Nat × ClusterInfo)
deriving DecidableEq, Repr

/-- The `{"physical_column_id": ...}` dict appended to a node's
`"alias_columns"` list. -/
structure AliasColumnInfo where
  physical_column_id : Nat
deriving DecidableEq, Repr

/-- A field node dict of `get_field_tree`.  `children` and `projections`
hold the ids of the referenced nodes (the Python dicts map id → shared node
object; the object graph is represented by the id-keyed heap below).
`columns`/`alias_columns` model the keys that `map_columns_to_fields` adds
lazily; the empty list models the key being absent. -/
structure FieldNode where
  name : String
  role : Nat
  flags : String
  type : String
  children : List Nat
  projections : List Nat
  columns : List ColumnInfo
  alias_columns : List AliasColumnInfo
deriving DecidableEq, Repr

/-- The id → node heap: `nodes` of `get_field_tree` (also serving as the
`field_id_to_node` map of `map_columns_to_fields`, see
`map_columns_to_fields`). -/
abbrev NodeMap := List (Nat × FieldNode)

/-- Result of `get_field_tree`: the ids of the top-level nodes (`tree`,
whose values are shared with `nodes`) plus the node heap. -/
structure FieldTreeState where
  tree : List Nat
  nodes : NodeMap
deriving DecidableEq, Repr

/-! ## rhydrator.py : get_field_tree -/

/-- `decode_field_flags` (inner function of `get_field_tree`): flag text plus
the three decoded bits. -/
def decode_field_flags (field : FieldDescription) : String × Bool × Bool × Bool :=
  let isRepetitive : Bool := (field.fFlags &&& 0x1) != 0
  let isProjected : Bool := (field.fFlags &&& 0x2) != 0
  let hasTypeChecksum : Bool := (field.fFlags &&& 0x4) != 0
  let flag_list : List String :=
    (if isRepetitive then
        ["Repetitive (Array Size: " ++ toString field.fArraySize ++ ")"] else [])
    ++ (if isProjected then
        ["Projected (Source Field ID: " ++ toString field.fSourceFieldID ++ ")"] else [])
    ++ (if hasTypeChecksum then
        ["Type Checksum (" ++ toString field.fTypeChecksum ++ ")"] else [])
  (String.intercalate ", " flag_list, isRepetitive, isProjected, hasTypeChecksum)

/-- The composed type string of a field node: base type, optional
`, alias: ...`, optional `, desc: ...` (Python truthiness of a string is
non-emptiness). -/
def composedFieldType (field : FieldDescription) : String :=
  let t := field.fTypeName
  let t := if field.fTypeAlias ≠ "" then t ++ ", alias: " ++ field.fTypeAlias else t
  if field.fFieldDescription ≠ "" then t ++ ", desc: " ++ field.fFieldDescription else t

/-- Update the node stored under key `k` (in-place mutation of the shared
node object in Python). -/
def updateNode (m : NodeMap) (k : Nat) (f : FieldNode → FieldNode) : NodeMap :=
  m.map fun p => if p.1 = k then (p.1, f p.2) else p

/-- The keys of a node map. -/
def keysOf (m : NodeMap) : List Nat := m.map Prod.fst

/-- One iteration of the `for field_id, field in enumerate(field_descriptions)`
loop of `get_field_tree`: create the node, store it under its id, then
either register it as a root (`parent_id == field_id`) or append it to the
children of its parent — which must already exist (`OrderViolation`). -/
def fieldTreeStep (st : FieldTreeState) (p : Nat × FieldDescription) :
    Except RhyError FieldTreeState :=
  let field_id := p.1
  let field := p.2
  let parent_id := field.fParentFieldID
  let field_flags := (decode_field_flags field).1
  let node : FieldNode :=
    { name := field.fFieldName,
      role := field.fStructuralRole,
      flags := field_flags,
      type := composedFieldType field,
      children := [],
      projections := [],
      columns := [],
      alias_columns := [] }
  let nodes' := st.nodes ++ [(field_id, node)]
  if parent_id = field_id then
    Except.ok { tree := st.tree ++ [field_id], nodes := nodes' }
  else
    match List.lookup parent_id nodes' with
    | none => Except.error RhyError.OrderViolation
    | some _ =>
        Except.ok
          { tree := st.tree,
            nodes := updateNode nodes' parent_id
              (fun n => { n with children := n.children ++ [field_id] }) }

/-- `get_field_tree` (inner function of `get_field_to_page_map`); the
`filepath` report output is excluded as a pure consumer. -/
def get_field_tree (field_descriptions : List FieldDescription) :
    Except RhyError FieldTreeState :=
  field_descriptions.enum.foldlM fieldTreeStep ⟨[], []⟩

/-! ## rhydrator.py : map_columns_to_fields -/

/-- The text a Python f-string prints for an optional integer (`None` for
the absent value). -/
def optIntText : Option Int → String
  | some v => toString v
  | none => "None"

/-- `decode_column_flags` (inner function of `map_columns_to_fields`):
fails with `MalformedFlags` when the deferred bit is set but
`fFirstElementIndex` is `None`; `isSuppressed` holds when deferred and the
first element index is negative. -/
def decode_column_flags (column : ColumnDescription) :
    Except RhyError (String × Bool × Bool × Bool) :=
  let isDeferred : Bool := (column.fFlags &&& 0x1) != 0
  let hasValueRange : Bool := (column.fFlags &&& 0x2) != 0
  let rangeText : List String :=
    if hasValueRange then
      ["Has Value Range (min: " ++ optIntText column.fMinValue
        ++ ", max: " ++ optIntText column.fMaxValue ++ ")"]
    else []
  if isDeferred then
    match column.fFirstElementIndex with
    | none => Except.error RhyError.MalformedFlags
    | some idx =>
        let isSuppressed : Bool := decide (idx < 0)
        let deferredText :=
          "Deferred (first element ind: " ++ toString idx
            ++ (if isSuppressed then ", suppressed" else "") ++ ")"
        Except.ok
          (String.intercalate ", " ([deferredText] ++ rangeText),
            isDeferred, isSuppressed, hasValueRange)
  else
    Except.ok
      (String.intercalate ", " rangeText, isDeferred, false, hasValueRange)

/-- One iteration of the `for col_id, column in enumerate(column_descriptions)`
loop of `map_columns_to_fields`: decode, resolve the owning field id
(`StructuralInconsistency` if absent), and append the column dict to that
node's `"columns"` list. -/
def columnStep (st : NodeMap) (p : Nat × ColumnDescription) :
    Except RhyError NodeMap := do
  let col_id := p.1
  let column := p.2
  let column_type := column.fColumnType.replace "ColumnType." ""
  let flagsResult ← decode_column_flags column
  let column_flags := flagsResult.1
  let column_rep_index := column.fRepresentationIndex
  match List.lookup column.fFieldID st with
  | some _ =>
      Except.ok (updateNode st column.fFieldID fun n =>
        { n with columns := n.columns ++
            [{ column_id := col_id, type := column_type, flags := column_flags,
               rep_index := column_rep_index, cluster_info := [] }] })
  | none => Except.error RhyError.StructuralInconsistency

/-- One iteration of the `for alias_column in alias_column_descriptions`
loop: resolve the projected field id (`StructuralInconsistency` if absent)
and append the alias dict; the physical column id is only stored, never
resolved. -/
def aliasStep (st : NodeMap) (alias_column : AliasColumnDescription) :
    Except RhyError NodeMap :=
  match List.lookup alias_column.fFieldID st with
  | some _ =>
      Except.ok (updateNode st alias_column.fFieldID fun n =>
        { n with alias_columns := n.alias_columns ++
            [{ physical_column_id := alias_column.fPhysicalColumnID }] })
  | none => Except.error RhyError.StructuralInconsistency

/-- `map_columns_to_fields` (inner function of `get_field_to_page_map`).
The source first rebuilds `field_id_to_node` by walking the tree from the
roots through the `children` dicts; since every node constructed by
`get_field_tree` is attached beneath a root, that map contains exactly the
nodes of the heap, which therefore serves directly (its iteration order
only affects the excluded report output). -/
def map_columns_to_fields (column_descriptions : List ColumnDescription)
    (alias_column_descriptions : List AliasColumnDescription)
    (field_tree : FieldTreeState) : Except RhyError NodeMap := do
  let m ← column_descriptions.enum.foldlM columnStep field_tree.nodes
  alias_column_descriptions.foldlM aliasStep m

/-! ## rhydrator.py : map_pages_to_columns_to_fields -/

/-- One iteration of the `for cluster_id, cluster_summary in
enumerate(cluster_summaries)` loop building `column_id_to_pages`: for each
column's page list of this cluster, store the cluster summary info and page
descriptions under `[column_id][cluster_id]`. -/
def clusterStep (pageLocations : List (List (List RPageDescription)))
    (st : List (Nat × List (Nat × ClusterInfo)))
    (p : Nat × ClusterSummary) :
    Except RhyError (List (Nat × List (Nat × ClusterInfo))) := do
  let (cluster_id, cluster_summary) := p
  match pageLocations[cluster_id]? with
  | none => Except.error RhyError.IndexOutOfRange
  | some columnLists =>
      Except.ok <| columnLists.enum.foldl (fun st' q =>
        let (column_id, page_descriptions) := q
        let entry : ClusterInfo :=
          { cluster_firstEntryNumber := cluster_summary.fFirstEntryNumber,
            cluster_nEntries := cluster_summary.fNEntries,
            cluster_feature_flag := cluster_summary.fFeatureFlag,
            pages := page_descriptions }
        if (List.lookup column_id st').isSome then
          st'.map fun r =>
            if r.1 = column_id then (r.1, r.2 ++ [(cluster_id, entry)]) else r
        else st' ++ [(column_id, [(cluster_id, entry)])]) st

/-- `map_pages_to_columns_to_fields` (inner function of
`get_field_to_page_map`): build `column_id_to_pages`, then attach
`"cluster_info"` to every column of every field node, failing with
`StructuralInconsistency` for a column id absent from the page locations. -/
def map_pages_to_columns_to_fields (pagelist_envelope : PageListEnvelope)
    (field_column_tree : NodeMap) : Except RhyError NodeMap := do
  let column_id_to_pages ←
    pagelist_envelope.clusterSummaries.enum.foldlM
      (clusterStep pagelist_envelope.pageLocations) []
  field_column_tree.mapM fun q => do
    let (fid, info) := q
    let cols ← info.columns.mapM fun col =>
      match List.lookup col.column_id column_id_to_pages with
      | some ci => Except.ok { col with cluster_info := ci }
      | none => Except.error RhyError.StructuralInconsistency
    Except.ok (fid, { info with columns := cols })

/-- `get_field_to_page_map`: build the field tree, map columns and alias
columns onto it, reject multiple page-list envelopes, return the empty dict
when there is none, and otherwise map the pages of the single envelope. -/
def get_field_to_page_map (schema_description : SchemaDescription)
    (pagelist_envelopes : List PageListEnvelope) : Except RhyError NodeMap := do
  let field_tree ← get_field_tree schema_description.fieldDescriptions
  let field_column_tree ←
    map_columns_to_fields schema_description.columnDescriptions
      schema_description.aliasColumnDescriptions field_tree
  if pagelist_envelopes.length > 1 then
    Except.error RhyError.UnsupportedLayout
  else
    match pagelist_envelopes with
    | [] => Except.ok []
    | ple :: _ => map_pages_to_columns_to_fields ple field_column_tree

/-! ## Concrete instances used by the scenario theorems and witnesses -/

/-- The builder of the sibling scenario: `addSpan("A", 0, 100)` then
`addSpan("B", 100, 50)` on a fresh builder, at top level. -/
def sibBuilder : ProfileBulder := add_span (add_span {} "A" 0 100) "B" 100 50

/-- The profile `render(150)` produces for `sibBuilder`. -/
def sibProfile : Profile :=
  { frames := [⟨"A", none, none, none⟩, ⟨"B", none, none, none⟩],
    ptype := "evented",
    name := "RNTuple File Layout",
    unit := "bytes",
    startValue := 0,
    endValue := 150,
    events := [⟨EventType.O, 0, 0⟩, ⟨EventType.C, 0, 100⟩,
               ⟨EventType.O, 1, 100⟩, ⟨EventType.C, 1, 150⟩] }

/-- The builder of the overlap scenario: spans `[0,10)` and `[5,15)` on one
builder instance. -/
def overlapBuilder : ProfileBulder := add_span (add_span {} "A" 0 10) "B" 5 10

/-- A builder (reachable through the public operations) on which the
round-trip law fails: the second span's snapshot `[p]` is a proper prefix of
the first span's snapshot `[p, q, a]`, shorter by two frames. -/
def deepDropBuilder : ProfileBulder :=
  add_span
    (pop_frame (pop_frame
      (add_span (push_shared_frame (push_shared_frame {} "p") "q") "a" 0 10)))
    "p" 10 5

/-- The profile `render(15)` produces for `deepDropBuilder`: frame `q`
(index 1) stays open until offset 15, so between offsets 10 and 15 the
replayed stack is `[0, 1]`, never the recorded `[0]`. -/
def deepDropProfile : Profile :=
  { frames := [⟨"p", none, none, none⟩, ⟨"q", none, none, none⟩,
               ⟨"a", none, none, none⟩],
    ptype := "evented",
    name := "RNTuple File Layout",
    unit := "bytes",
    startValue := 0,
    endValue := 15,
    events := [⟨EventType.O, 0, 0⟩, ⟨EventType.O, 1, 0⟩, ⟨EventType.O, 2, 0⟩,
               ⟨EventType.C, 2, 10⟩, ⟨EventType.C, 1, 15⟩, ⟨EventType.C, 0, 15⟩] }

/-- A single root field description (parent id equals its own id 0). -/
def rootField : FieldDescription :=
  { fFieldName := "evt", fTypeName := "", fTypeAlias := "", fFieldDescription := "",
    fParentFieldID := 0, fStructuralRole := 1, fFlags := 0, fArraySize := 0,
    fSourceFieldID := 0, fTypeChecksum := 0 }

/-- A child field description under `rootField`. -/
def childField : FieldDescription :=
  { fFieldName := "pt", fTypeName := "float", fTypeAlias := "", fFieldDescription := "",
    fParentFieldID := 0, fStructuralRole := 0, fFlags := 0, fArraySize := 0,
    fSourceFieldID := 0, fTypeChecksum := 0 }

/-- The tree `get_field_tree` builds for `[rootField, childField]`. -/
def exTree : FieldTreeState :=
  { tree := [0],
    nodes := [(0, { name := "evt", role := 1, flags := "", type := "",
                    children := [1], projections := [], columns := [],
                    alias_columns := [] }),
              (1, { name := "pt", role := 0, flags := "", type := "float",
                    children := [], projections := [], columns := [],
                    alias_columns := [] })] }

/-- The tree `get_field_tree` builds for `[rootField]` alone. -/
def rootTree : FieldTreeState :=
  { tree := [0],
    nodes := [(0, { name := "evt", role := 1, flags := "", type := "",
                    children := [], projections := [], columns := [],
                    alias_columns := [] })] }

/-- A well-formed column owned by field 1. -/
def exColumn : ColumnDescription :=
  { fColumnType := "ColumnType.kReal32", fFieldID := 1, fFlags := 0,
    fFirstElementIndex := none, fMinValue := none, fMaxValue := none,
    fRepresentationIndex := 0 }

/-- A column with the deferred bit set but no first-element index. -/
def deferredColumn : ColumnDescription :=
  { fColumnType := "ColumnType.kIndex64", fFieldID := 0, fFlags := 1,
    fFirstElementIndex := none, fMinValue := none, fMaxValue := none,
    fRepresentationIndex := 0 }

/-- An alias column whose physical column id (999) resolves nowhere — there
is no column description at all — while its owning field id 0 is valid. -/
def danglingAlias : AliasColumnDescription := ⟨999, 0⟩

/-- The node map `map_columns_to_fields` produces from `rootTree` with no
columns and only `danglingAlias`. -/
def rootTreeAliased : NodeMap :=
  [(0, { name := "evt", role := 1, flags := "", type := "",
         children := [], projections := [], columns := [],
         alias_columns := [⟨999⟩] })]

/-- The node map `map_columns_to_fields` produces from `rootTree` with no
columns and no alias columns (unchanged nodes). -/
def rootTreeMapped : NodeMap :=
  [(0, { name := "evt", role := 1, flags := "", type := "",
         children := [], projections := [], columns := [],
         alias_columns := [] })]

/-- A schema with one root field and no columns. -/
def exSchema : SchemaDescription :=
  { fieldDescriptions := [rootField], columnDescriptions := [],
    aliasColumnDescriptions := [] }

/-! ## Theorems -/

/-! ### Association-list helper lemmas -/

theorem lookup_append {α β : Type} [BEq α] [LawfulBEq α] (a : α) (l₁ l₂ : List (α × β)) :
    List.lookup a (l₁ ++ l₂) = (List.lookup a l₁).or (List.lookup a l₂) := by
  induction l₁ with
  | nil => simp
  | cons p tl ih =>
      obtain ⟨k, v⟩ := p
      by_cases h : a = k
      · subst h; simp [List.lookup_cons]
      · have hb : (a == k) = false := by simpa using h
        simp [List.lookup_cons, hb, ih]

theorem lookup_isSome_iff_keys {m : NodeMap} {k : Nat} :
    (List.lookup k m).isSome ↔ k ∈ keysOf m := by
  induction m with
  | nil => simp [keysOf]
  | cons p tl ih =>
      obtain ⟨k', v⟩ := p
      by_cases h : k = k'
      · subst h; simp [List.lookup_cons, keysOf]
      · have hb : (k == k') = false := by simpa using h
        simp [List.lookup_cons, hb, keysOf, h, ih]

theorem updateNode_cons (p : Nat × FieldNode) (tl : NodeMap) (k : Nat)
    (f : FieldNode → FieldNode) :
    updateNode (p :: tl) k f =
      (if p.1 = k then (p.1, f p.2) else p) :: updateNode tl k f := rfl

theorem keysOf_updateNode (m : NodeMap) (k : Nat) (f : FieldNode → FieldNode) :
    keysOf (updateNode m k f) = keysOf m := by
  induction m with
  | nil => rfl
  | cons p tl ih =>
      rw [updateNode_cons]
      by_cases h : p.1 = k <;> simp [h, keysOf] <;>
        simpa [keysOf] using ih

theorem length_updateNode (m : NodeMap) (k : Nat) (f : FieldNode → FieldNode) :
    (updateNode m k f).length = m.length := by
  simp [updateNode]

theorem lookup_updateNode_self (m : NodeMap) (k : Nat) (f : FieldNode → FieldNode) :
    List.lookup k (updateNode m k f) = (List.lookup k m).map f := by
  induction m with
  | nil => rfl
  | cons p tl ih =>
      obtain ⟨k', v⟩ := p
      rw [updateNode_cons]
      by_cases h : k' = k
      · subst h; simp [List.lookup_cons]
      · have hb : (k == k') = false := by simpa using fun he => h he.symm
        simp [h, List.lookup_cons, hb, ih]

theorem lookup_updateNode_ne (m : NodeMap) (k k' : Nat) (f : FieldNode → FieldNode)
    (h : k' ≠ k) : List.lookup k' (updateNode m k f) = List.lookup k' m := by
  induction m with
  | nil => rfl
  | cons p tl ih =>
      obtain ⟨k'', v⟩ := p
      rw [updateNode_cons]
      by_cases h2 : k'' = k
      · subst h2
        have hb : (k' == k'') = false := by simpa using h
        simp [List.lookup_cons, hb, ih]
      · by_cases h3 : k' = k''
        · subst h3; simp [h2, List.lookup_cons]
        · have hb : (k' == k'') = false := by simpa using h3
          simp [h2, List.lookup_cons, hb, ih]

/-! ### Replay lemmas -/

theorem foldl_replay_opens (st : List Nat) (l : List Nat) (off : Nat) :
    (l.map (fun f => (⟨EventType.O, f, off⟩ : Event))).foldl replayStep st = st ++ l := by
  induction l generalizing st with
  | nil => simp
  | cons x xs ih =>
      simp only [List.map_cons, List.foldl_cons]
      rw [show replayStep st ⟨EventType.O, x, off⟩ = st ++ [x] from rfl, ih]
      simp

theorem foldl_replay_closes (r : List Nat) (pre : List Nat) (off : Nat) :
    (r.map (fun f => (⟨EventType.C, f, off⟩ : Event))).foldl replayStep (pre ++ r.reverse)
      = pre := by
  induction r with
  | nil => simp
  | cons y ys ih =>
      simp only [List.map_cons, List.foldl_cons, List.reverse_cons]
      rw [show replayStep (pre ++ (ys.reverse ++ [y])) ⟨EventType.C, y, off⟩
            = (pre ++ (ys.reverse ++ [y])).dropLast from rfl]
      rw [← List.append_assoc, List.dropLast_concat]
      exact ih

theorem replayStack_append (evs₁ evs₂ : List Event) :
    replayStack (evs₁ ++ evs₂) = evs₂.foldl replayStep (replayStack evs₁) := by
  simp [replayStack, List.foldl_append]

/-! ### Postcondition-check lemmas -/

theorem eventsOrdered_spec :
    ∀ (evs : List Event) (off : Nat), eventsOrdered off evs = true →
      (∀ e ∈ evs, off ≤ e.at_) ∧ List.Pairwise (fun e₁ e₂ => e₁.at_ ≤ e₂.at_) evs := by
  intro evs
  induction evs with
  | nil => intro off _; exact ⟨by simp, List.Pairwise.nil⟩
  | cons e rest ih =>
      intro off h
      rw [eventsOrdered, Bool.and_eq_true, decide_eq_true_eq] at h
      obtain ⟨h1, h2⟩ := h
      obtain ⟨hall, hpw⟩ := ih (max off e.at_) h2
      refine ⟨?_, ?_⟩
      · intro e' he'
        rcases List.mem_cons.mp he' with rfl | hmem
        · exact h1
        · exact le_trans (le_max_left off e.at_) (hall _ hmem)
      · exact List.Pairwise.cons
          (fun e' he' => le_trans (le_max_right off e.at_) (hall _ he')) hpw

/-- Claim C2: for every input on which `render` returns normally, the
emitted event sequence has non-decreasing byte offsets across the full
sequence, and the total number of Open events equals the total number of
Close events. -/
theorem render_postconditions (b : ProfileBulder) (endValue : Nat) (p : Profile)
    (h : render b endValue = Except.ok p) :
    List.Pairwise (fun e₁ e₂ => e₁.at_ ≤ e₂.at_) p.events ∧
    countOpens p.events = countCloses p.events := by
  unfold render at h
  split at h
  · cases h
  · split at h
    · cases h
    · rename_i final heq
      split at h
      · cases h
      · split at h
        · cases h
        · rename_i ho hc
          cases h
          rw [not_not] at ho
          rw [ne_eq, not_not] at hc
          exact ⟨(eventsOrdered_spec _ 0 ho).2, hc⟩

/-- Witness for C2 at the sibling scenario. -/
theorem render_postconditions_witness :
    List.Pairwise (fun e₁ e₂ => e₁.at_ ≤ e₂.at_) sibProfile.events ∧
    countOpens sibProfile.events = countCloses sibProfile.events :=
  render_postconditions sibBuilder 150 sibProfile rfl

/-- Claim C4: on a fresh builder, `addSpan("A", 0, 100)` then
`addSpan("B", 100, 50)` at top level followed by `render(150)` produces
exactly the events Open(A)@0, Close(A)@100, Open(B)@100, Close(B)@150,
with no nesting between the two disjoint top-level spans. -/
theorem render_sibling_scenario : render sibBuilder 150 = Except.ok sibProfile := rfl

/-- Claim C9: within one builder instance, `pushSharedFrame` is idempotent
on frame identity: two calls with the same (label, secondary) pair return
the same frame id and leave the builder unchanged the second time, and one
call grows the frame table by at most one entry. -/
theorem shared_frame_interning_idempotent (b : ProfileBulder) (name : String)
    (file : Option String) :
    (shared_frame_id ((shared_frame_id b name file).2) name file).1
        = (shared_frame_id b name file).1 ∧
    (shared_frame_id ((shared_frame_id b name file).2) name file).2
        = (shared_frame_id b name file).2 ∧
    (push_shared_frame (push_shared_frame b name file) name file).frames
        = (push_shared_frame b name file).frames ∧
    (push_shared_frame b name file).frames.length ≤ b.frames.length + 1 := by
  cases hl : List.lookup (name, file) b.shared_frames with
  | some i =>
      simp [push_shared_frame, shared_frame_id, hl]
  | none =>
      have hl2 : List.lookup (name, file)
          (b.shared_frames ++ [((name, file), b.frames.length)])
            = some b.frames.length := by
        rw [lookup_append, hl]
        simp [List.lookup_cons]
      simp [push_shared_frame, shared_frame_id, hl, hl2]

/-- Claim C8: a column with the deferred flag bit set but no
first-element-index value makes `decode_column_flags` fail with
`MalformedFlags`, and the suppressed result holds exactly when the column is
deferred and its first-element-index is negative. -/
theorem decode_column_flags_spec (column : ColumnDescription) :
    ((column.fFlags &&& 0x1 ≠ 0) → column.fFirstElementIndex = none →
      decode_column_flags column = Except.error RhyError.MalformedFlags) ∧
    (∀ r, decode_column_flags column = Except.ok r →
      (r.2.2.1 = true ↔
        r.2.1 = true ∧ ∃ idx, column.fFirstElementIndex = some idx ∧ idx < 0)) := by
  constructor
  · intro h1 h2
    have hd : ((column.fFlags &&& 0x1) != 0) = true := bne_iff_ne.mpr h1
    unfold decode_column_flags
    rw [h2, if_pos hd]
  · intro r h
    unfold decode_column_flags at h
    by_cases hd : ((column.fFlags &&& 0x1) != 0) = true
    · rw [if_pos hd] at h
      cases hfe : column.fFirstElementIndex with
      | none => rw [hfe] at h; cases h
      | some idx =>
          rw [hfe] at h
          cases h
          simp only
          constructor
          · intro hsup
            exact ⟨hd, idx, rfl, of_decide_eq_true hsup⟩
          · rintro ⟨-, idx', hidx', hneg⟩
            obtain rfl : idx = idx' := Option.some.inj hidx'
            exact decide_eq_true hneg
    · rw [if_neg hd] at h
      cases h
      simp only
      constructor
      · intro hfalse; cases hfalse
      · rintro ⟨hdt, -⟩
        exact absurd hdt hd

/-- Witness for C8 at a concrete deferred column without an index. -/
theorem decode_column_flags_spec_witness :
    decode_column_flags deferredColumn = Except.error RhyError.MalformedFlags :=
  (decode_column_flags_spec deferredColumn).1 (by decide) rfl

/-! ### Overlap failure (C3) -/

theorem foldlM_renderStep_overlap :
    ∀ (ss : List Span) (st : RenderState),
      ¬ List.Chain' (fun s t => s.offset + s.size ≤ t.offset) ss →
      ss.foldlM renderStep st = Except.error RenderError.OverlapViolation := by
  intro ss
  induction ss with
  | nil => intro st h; exact absurd List.chain'_nil h
  | cons a rest ih =>
      intro st h
      rw [List.foldlM_cons]
      by_cases ha : a.offset < st.last_span_end
      · rw [show renderStep st a = Except.error RenderError.OverlapViolation from by
          unfold renderStep; rw [if_pos ha]]
        rfl
      · have hstep : ∃ st', renderStep st a = Except.ok st' ∧
            st'.last_span_end = a.offset + a.size := by
          unfold renderStep
          rw [if_neg ha]
          by_cases hstk : st.stack = []
          · rw [if_pos hstk]; exact ⟨_, rfl, rfl⟩
          · rw [if_neg hstk]; exact ⟨_, rfl, rfl⟩
        obtain ⟨st', hst', hend⟩ := hstep
        rw [hst']
        show rest.foldlM renderStep st' = Except.error RenderError.OverlapViolation
        cases rest with
        | nil => exact absurd (by simp) h
        | cons b rest' =>
            by_cases hab : a.offset + a.size ≤ b.offset
            · have hrest : ¬ List.Chain' (fun s t => s.offset + s.size ≤ t.offset)
                  (b :: rest') := fun hc => h (List.chain'_cons.mpr ⟨hab, hc⟩)
              exact ih st' hrest
            · rw [List.foldlM_cons]
              rw [show renderStep st' b = Except.error RenderError.OverlapViolation from by
                unfold renderStep
                rw [if_pos (by rw [hend]; exact Nat.lt_of_not_le hab)]]
              rfl

/-- Claim C3: during `render`, processed in ascending offset order, a span
starting strictly before the end of the previous span (the cursor) makes
`render` fail with the overlap error; in particular spans `[0,10)` and
`[5,15)` recorded on the same builder make `render` fail with
`OverlapViolation`. -/
theorem render_overlap_fails :
    (∀ (b : ProfileBulder) (endValue : Nat), b.stack = [] →
      ¬ List.Chain' (fun s t => s.offset + s.size ≤ t.offset) (sortedSpans b) →
      render b endValue = Except.error RenderError.OverlapViolation) ∧
    render overlapBuilder 15 = Except.error RenderError.OverlapViolation := by
  constructor
  · intro b endValue hstk hchain
    unfold render
    rw [if_neg (by simpa using hstk)]
    rw [foldlM_renderStep_overlap (sortedSpans b) ⟨[], [], 0, []⟩ hchain]
  · rfl

/-- Witness for C3: the hypotheses of the universally quantified part hold at
the overlap scenario builder. -/
theorem render_overlap_fails_witness :
    render overlapBuilder 15 = Except.error RenderError.OverlapViolation :=
  render_overlap_fails.1 overlapBuilder 15 rfl (by
    rw [show sortedSpans overlapBuilder
          = [(⟨0, 10, [0]⟩ : Span), (⟨5, 10, [1]⟩ : Span)] from rfl]
    intro hch
    exact absurd (List.chain'_cons.mp hch).1 (by decide))

/-! ### Round-trip law (C1) -/

theorem firstDiff_some_spec :
    ∀ (l₁ l₂ : List Nat) (i : Nat), firstDiff l₁ l₂ = some i →
      l₁.take i = l₂.take i ∧ i < l₁.length ∧ i < l₂.length := by
  intro l₁
  induction l₁ with
  | nil => intro l₂ i h; cases l₂ <;> cases h
  | cons x xs ih =>
      intro l₂ i h
      cases l₂ with
      | nil => cases h
      | cons y ys =>
          rw [firstDiff] at h
          by_cases hxy : x ≠ y
          · rw [if_pos hxy] at h
            cases h
            exact ⟨rfl, Nat.succ_pos _, Nat.succ_pos _⟩
          · rw [if_neg hxy] at h
            rw [not_not] at hxy
            cases hfd : firstDiff xs ys with
            | none => rw [hfd] at h; cases h
            | some j =>
                rw [hfd] at h
                cases h
                obtain ⟨ht, h1, h2⟩ := ih ys j hfd
                subst hxy
                refine ⟨?_, Nat.succ_lt_succ h1, Nat.succ_lt_succ h2⟩
                simp [List.take_succ_cons, ht]

theorem firstDiff_none_take :
    ∀ (l₁ l₂ : List Nat), firstDiff l₁ l₂ = none →
      ∀ k, k ≤ l₁.length → k ≤ l₂.length → l₁.take k = l₂.take k := by
  intro l₁
  induction l₁ with
  | nil =>
      intro l₂ _ k hk1 _
      have hk0 : k = 0 := by simpa using hk1
      subst hk0
      simp
  | cons x xs ih =>
      intro l₂ h k hk1 hk2
      cases l₂ with
      | nil =>
          have hk0 : k = 0 := by simpa using hk2
          subst hk0
          simp
      | cons y ys =>
          rw [firstDiff] at h
          by_cases hxy : x ≠ y
          · rw [if_pos hxy] at h; cases h
          · rw [if_neg hxy] at h
            rw [not_not] at hxy
            subst hxy
            cases hfd : firstDiff xs ys with
            | some j => rw [hfd] at h; cases h
            | none =>
                cases k with
                | zero => simp
                | succ k' =>
                    simp only [List.take_succ_cons]
                    rw [ih ys hfd k' (Nat.le_of_succ_le_succ hk1)
                      (Nat.le_of_succ_le_succ hk2)]

theorem firstDiff_none_prefix :
    ∀ (l₁ l₂ : List Nat), firstDiff l₁ l₂ = none →
      l₁ <+: l₂ ∨ l₂ <+: l₁ := by
  intro l₁
  induction l₁ with
  | nil => intro l₂ _; exact Or.inl (List.nil_prefix)
  | cons x xs ih =>
      intro l₂ h
      cases l₂ with
      | nil => exact Or.inr (List.nil_prefix)
      | cons y ys =>
          rw [firstDiff] at h
          by_cases hxy : x ≠ y
          · rw [if_pos hxy] at h; cases h
          · rw [if_neg hxy] at h
            rw [not_not] at hxy
            subst hxy
            cases hfd : firstDiff xs ys with
            | some j => rw [hfd] at h; cases h
            | none =>
                rcases ih ys hfd with ⟨t, ht⟩ | ⟨t, ht⟩
                · exact Or.inl ⟨t, by rw [List.cons_append, ht]⟩
                · exact Or.inr ⟨t, by rw [List.cons_append, ht]⟩

/-- What a successful `renderStep` guarantees, under the no-deep-prefix-drop
condition between the open stack and the incoming span: the cursor moves to
the span's end, the open stack becomes exactly the span's snapshot, replay
tracks it, and the appended events all sit in `[old cursor, span.offset]`. -/
theorem renderStep_ok (st : RenderState) (span : Span) (st' : RenderState)
    (h : renderStep st span = Except.ok st')
    (hstk : span.stack.isPrefixOf st.stack → st.stack.length ≤ span.stack.length + 1)
    (hreplay : replayStack st.events = st.stack) :
    st.last_span_end ≤ span.offset ∧
    st'.last_span_end = span.offset + span.size ∧
    st'.stack = span.stack ∧
    replayStack st'.events = span.stack ∧
    ∃ newEvs, st'.events = st.events ++ newEvs ∧
      ∀ e ∈ newEvs, st.last_span_end ≤ e.at_ ∧ e.at_ ≤ span.offset := by
  unfold renderStep at h
  by_cases hov : span.offset < st.last_span_end
  · rw [if_pos hov] at h; cases h
  · rw [if_neg hov] at h
    have hle : st.last_span_end ≤ span.offset := Nat.le_of_not_lt hov
    by_cases hstke : st.stack = []
    · rw [if_pos hstke] at h
      cases h
      refine ⟨hle, rfl, rfl, ?_, ?_⟩
      · show replayStack (st.events ++ _) = span.stack
        rw [replayStack_append, foldl_replay_opens, hreplay, hstke]
        simp
      · refine ⟨_, rfl, ?_⟩
        intro e he
        obtain ⟨f, -, rfl⟩ := List.mem_map.mp he
        exact ⟨hle, le_refl _⟩
    · rw [if_neg hstke] at h
      cases h
      have hi : st.stack.take (commonIndex st.stack span.stack)
            = span.stack.take (commonIndex st.stack span.stack) ∧
          commonIndex st.stack span.stack ≤ span.stack.length := by
        unfold commonIndex
        cases hfd : firstDiff st.stack span.stack with
        | some j =>
            obtain ⟨ht, h1, h2⟩ := firstDiff_some_spec _ _ j hfd
            exact ⟨ht, Nat.le_of_lt h2⟩
        | none =>
            have hlen1 : 1 ≤ st.stack.length := by
              cases hss : st.stack with
              | nil => exact absurd hss hstke
              | cons z zs => simp
            rcases firstDiff_none_prefix _ _ hfd with hp | hp
            · have hl : st.stack.length ≤ span.stack.length := hp.length_le
              refine ⟨?_, le_trans (Nat.sub_le _ _) hl⟩
              exact firstDiff_none_take _ _ hfd _ (Nat.sub_le _ _)
                (le_trans (Nat.sub_le _ _) hl)
            · have hpre : span.stack.isPrefixOf st.stack :=
                List.isPrefixOf_iff_prefix.mpr hp
              have hl : st.stack.length ≤ span.stack.length + 1 := hstk hpre
              have hle2 : st.stack.length - 1 ≤ span.stack.length :=
                Nat.sub_le_of_le_add hl
              refine ⟨?_, hle2⟩
              exact firstDiff_none_take _ _ hfd _ (Nat.sub_le _ _) hle2
      obtain ⟨htake, hile⟩ := hi
      have hstack : st.stack.take (commonIndex st.stack span.stack)
          ++ span.stack.drop (commonIndex st.stack span.stack) = span.stack := by
        rw [htake, List.take_append_drop]
      refine ⟨hle, rfl, hstack, ?_, ?_⟩
      · show replayStack (st.events ++ _ ++ _) = span.stack
        rw [replayStack_append, replayStack_append, hreplay]
        have hclose :
            ((st.stack.drop (commonIndex st.stack span.stack)).reverse.map
              (fun f => (⟨EventType.C, f, st.last_span_end⟩ : Event))).foldl
                replayStep st.stack
              = st.stack.take (commonIndex st.stack span.stack) := by
          have := foldl_replay_closes
            ((st.stack.drop (commonIndex st.stack span.stack)).reverse)
            (st.stack.take (commonIndex st.stack span.stack)) st.last_span_end
          rw [List.reverse_reverse, List.take_append_drop] at this
          exact this
        rw [hclose, foldl_replay_opens, hstack]
      · refine ⟨_, by rw [List.append_assoc], ?_⟩
        intro e he
        rcases List.mem_append.mp he with hc | ho
        · obtain ⟨f, -, rfl⟩ := List.mem_map.mp hc
          exact ⟨le_refl _, hle⟩
        · obtain ⟨f, -, rfl⟩ := List.mem_map.mp ho
          exact ⟨hle, le_refl _⟩

/-- The loop invariant of `render`, run from a state whose events replay to
its open stack: the final state still replays to its stack, all events stay
below the final cursor, the cursor never moves backwards, everything
appended sits at or after the starting cursor, and every processed span is
reproduced within the loop's event list. -/
theorem renderFold_main :
    ∀ (rest : List Span) (st final : RenderState),
      rest.foldlM renderStep st = Except.ok final →
      replayStack st.events = st.stack →
      (∀ e ∈ st.events, e.at_ ≤ st.last_span_end) →
      (∀ a, rest.head? = some a →
        a.stack.isPrefixOf st.stack → st.stack.length ≤ a.stack.length + 1) →
      NoDeepPrefixDrop rest →
      replayStack final.events = final.stack ∧
      (∀ e ∈ final.events, e.at_ ≤ final.last_span_end) ∧
      st.last_span_end ≤ final.last_span_end ∧
      (∃ tail, final.events = st.events ++ tail ∧
        ∀ e ∈ tail, st.last_span_end ≤ e.at_) ∧
      (∀ s ∈ rest, s.offset + s.size ≤ final.last_span_end ∧
        ∃ k ≤ final.events.length,
          replayStack (final.events.take k) = s.stack ∧
          (∀ e ∈ final.events.take k, e.at_ ≤ s.offset) ∧
          (∀ e ∈ final.events.drop k, s.offset + s.size ≤ e.at_)) := by
  intro rest
  induction rest with
  | nil =>
      intro st final h hreplay hbound _ _
      rw [List.foldlM_nil] at h
      cases h
      exact ⟨hreplay, hbound, le_refl _, ⟨[], by simp, by simp⟩, by simp⟩
  | cons a rest' ih =>
      intro st final h hreplay hbound hhead hch
      rw [List.foldlM_cons] at h
      cases hstep : renderStep st a with
      | error e => rw [hstep] at h; cases h
      | ok st1 =>
          rw [hstep] at h
          replace h : rest'.foldlM renderStep st1 = Except.ok final := h
          obtain ⟨hle1, hcur1, hstk1, hrep1, newEvs, hev1, hbound1⟩ :=
            renderStep_ok st a st1 hstep (hhead a rfl) hreplay
          have hle1' : st.last_span_end ≤ st1.last_span_end := by
            rw [hcur1]; exact le_trans hle1 (Nat.le_add_right _ _)
          have hbound2 : ∀ e ∈ st1.events, e.at_ ≤ st1.last_span_end := by
            intro e he
            rw [hev1] at he
            rcases List.mem_append.mp he with ho | hn
            · exact le_trans (hbound e ho) hle1'
            · rw [hcur1]
              exact le_trans (hbound1 e hn).2 (Nat.le_add_right _ _)
          have hhead' : ∀ b, rest'.head? = some b →
              b.stack.isPrefixOf st1.stack → st1.stack.length ≤ b.stack.length + 1 := by
            intro b hb
            cases rest' with
            | nil => cases hb
            | cons b' tl =>
                cases hb
                rw [hstk1]
                exact (List.chain'_cons.mp hch).1
          have hch' : NoDeepPrefixDrop rest' := hch.tail
          obtain ⟨c1, c2, c3, ⟨tail, htail, htb⟩, call⟩ :=
            ih st1 final h (by rw [hstk1]; exact hrep1) hbound2 hhead' hch'
          refine ⟨c1, c2, le_trans hle1' c3, ?_, ?_⟩
          · refine ⟨newEvs ++ tail, by rw [htail, hev1, List.append_assoc], ?_⟩
            intro e he
            rcases List.mem_append.mp he with hn | ht
            · exact (hbound1 e hn).1
            · exact le_trans hle1' (htb e ht)
          · intro s hs
            rcases List.mem_cons.mp hs with rfl | hs'
            · refine ⟨by rw [← hcur1]; exact le_trans (le_refl _) c3, ?_⟩
              refine ⟨st1.events.length, ?_, ?_, ?_, ?_⟩
              · rw [htail]; simp
              · rw [htail, List.take_left, hrep1]
              · intro e he
                rw [htail, List.take_left] at he
                rw [hev1] at he
                rcases List.mem_append.mp he with ho | hn
                · exact le_trans (hbound e ho) hle1
                · exact (hbound1 e hn).2
              · intro e he
                rw [htail, List.drop_left] at he
                rw [← hcur1]
                exact htb e he
            · exact call s hs'

theorem insertSpan_perm (s : Span) (l : List Span) : (insertSpan s l).Perm (s :: l) := by
  induction l with
  | nil => exact List.Perm.refl _
  | cons t ts ih =>
      rw [insertSpan]
      by_cases h : t.offset ≤ s.offset
      · rw [if_pos h]
        exact List.Perm.trans (List.Perm.cons t ih) (List.Perm.swap s t ts)
      · rw [if_neg h]

theorem foldl_insertSpan_perm :
    ∀ (l acc : List Span),
      (l.foldl (fun acc' s => insertSpan s acc') acc).Perm (acc ++ l) := by
  intro l
  induction l with
  | nil => intro acc; simp
  | cons s ss ih =>
      intro acc
      rw [List.foldl_cons]
      refine List.Perm.trans (ih (insertSpan s acc)) ?_
      refine List.Perm.trans (((insertSpan_perm s acc).append_right ss)) ?_
      rw [List.cons_append]
      exact List.perm_middle.symm

theorem sortedSpans_perm (b : ProfileBulder) : (sortedSpans b).Perm b.spans := by
  have := foldl_insertSpan_perm b.spans []
  simpa [sortedSpans] using this

/-- Claim C1, amended: for every builder whose recorded spans are pairwise
non-overlapping in their `[offset, offset+size)` ranges and whose spans, in
ascending offset order, never drop to a proper prefix of the previous span's
snapshot that is shorter by more than the leaf frame, replaying the
Open/Close event list of a successful `render` reproduces, for each input
span, exactly the recorded frame-id stack snapshot on exactly the recorded
`[offset, offset+size)` extent. -/
theorem render_replay_roundTrip (b : ProfileBulder) (endValue : Nat) (p : Profile)
    (hdisj : SpansDisjoint b.spans)
    (hdrop : NoDeepPrefixDrop (sortedSpans b))
    (hok : render b endValue = Except.ok p) :
    ∀ s ∈ b.spans, Reproduced p.events s := by
  unfold render at hok
  split at hok
  · cases hok
  · split at hok
    · cases hok
    · rename_i final heq
      split at hok
      · cases hok
      · split at hok
        · cases hok
        · cases hok
          obtain ⟨c1, c2, -, -, call⟩ :=
            renderFold_main (sortedSpans b) ⟨[], [], 0, []⟩ final heq rfl
              (by simp) (by intro a _ _; simp) hdrop
          intro s hs
          have hs' : s ∈ sortedSpans b := ((sortedSpans_perm b).mem_iff).mpr hs
          obtain ⟨hend, k, hk, hrep, hpre, hpost⟩ := call s hs'
          refine ⟨k, ?_, ?_, ?_, ?_⟩
          · rw [List.mem_range]
            refine Nat.lt_succ_of_le (le_trans hk ?_)
            show final.events.length ≤ (renderEvents final).length
            rw [renderEvents, List.length_append]
            exact Nat.le_add_right _ _
          · show replayStack ((renderEvents final).take k) = s.stack
            rw [renderEvents, List.take_append_of_le_length hk]
            exact hrep
          · intro e he
            rw [show renderEvents final =
                final.events ++ final.stack.reverse.map
                  (fun f => (⟨EventType.C, f, final.last_span_end⟩ : Event))
              from rfl, List.take_append_of_le_length hk] at he
            exact hpre e he
          · intro e he
            rw [show renderEvents final =
                final.events ++ final.stack.reverse.map
                  (fun f => (⟨EventType.C, f, final.last_span_end⟩ : Event))
              from rfl, List.drop_append_of_le_length hk] at he
            rcases List.mem_append.mp he with hd | hc
            · exact hpost e hd
            · obtain ⟨f, -, rfl⟩ := List.mem_map.mp hc
              exact hend

/-- Counterexample to claim C1 as stated: on `deepDropBuilder` the spans are
pairwise non-overlapping and `render` succeeds, yet the recorded span
`⟨10, 5, [0]⟩` is not reproduced by replaying the event list — frame 1 stays
open over `[10, 15)`, so the replayed stack there is `[0, 1]`, never the
recorded snapshot `[0]`. -/
theorem render_replay_roundTrip_cex :
    SpansDisjoint deepDropBuilder.spans ∧
    (⟨10, 5, [0]⟩ : Span) ∈ deepDropBuilder.spans ∧
    render deepDropBuilder 15 = Except.ok deepDropProfile ∧
    ¬ Reproduced deepDropProfile.events ⟨10, 5, [0]⟩ :=
  ⟨by decide, by decide, rfl, by decide⟩

/-- Witness for the amended C1 at the sibling scenario, instantiated at the
first recorded span. -/
theorem render_replay_roundTrip_witness :
    Reproduced sibProfile.events ⟨0, 100, [0]⟩ :=
  render_replay_roundTrip sibBuilder 150 sibProfile (by decide)
    (by
      unfold NoDeepPrefixDrop
      rw [show sortedSpans sibBuilder
            = [(⟨0, 100, [0]⟩ : Span), (⟨100, 50, [1]⟩ : Span)] from rfl]
      exact List.chain'_pair.mpr (fun _ => by decide))
    rfl ⟨0, 100, [0]⟩ (by decide)

/-! ### Field tree construction (C5) -/

theorem fieldTreeStep_ok_shape (st : FieldTreeState) (fid : Nat) (fd : FieldDescription)
    (h : fd.fParentFieldID ≠ fid → (List.lookup fd.fParentFieldID st.nodes).isSome) :
    ∃ st', fieldTreeStep st (fid, fd) = Except.ok st' ∧
      keysOf st'.nodes = keysOf st.nodes ++ [fid] := by
  simp only [fieldTreeStep]
  by_cases hpar : fd.fParentFieldID = fid
  · rw [if_pos hpar]
    exact ⟨_, rfl, by simp [keysOf]⟩
  · rw [if_neg hpar]
    obtain ⟨v, hv⟩ := Option.isSome_iff_exists.mp (h hpar)
    have hlk : ∀ (l₂ : List (Nat × FieldNode)),
        List.lookup fd.fParentFieldID (st.nodes ++ l₂) = some v := by
      intro l₂
      rw [lookup_append, hv]
      rfl
    rw [hlk]
    refine ⟨_, rfl, ?_⟩
    rw [keysOf_updateNode]
    simp [keysOf]

theorem fieldTree_fold_total :
    ∀ (l : List FieldDescription) (n : Nat) (st : FieldTreeState),
      (∀ i (hi : i < l.length),
        (l.get ⟨i, hi⟩).fParentFieldID ≠ n + i → (l.get ⟨i, hi⟩).fParentFieldID < n + i) →
      st.nodes.length = n →
      (∀ k, k < n → (List.lookup k st.nodes).isSome) →
      ∃ st', (List.enumFrom n l).foldlM fieldTreeStep st = Except.ok st' ∧
        st'.nodes.length = n + l.length := by
  intro l
  induction l with
  | nil =>
      intro n st _ hlen _
      refine ⟨st, ?_, by simpa using hlen⟩
      rw [show List.enumFrom n ([] : List FieldDescription) = [] from rfl,
        List.foldlM_nil]
      rfl
  | cons fd fs ih =>
      intro n st h hlen hkeys
      rw [List.enumFrom_cons, List.foldlM_cons]
      obtain ⟨st1, hstep, hkeys1⟩ := fieldTreeStep_ok_shape st n fd (by
        intro hne
        exact hkeys _ (h 0 (by simp) hne))
      rw [hstep]
      have hlen1 : st1.nodes.length = n + 1 := by
        have := congrArg List.length hkeys1
        simpa [keysOf, hlen] using this
      have hkeys1' : ∀ k, k < n + 1 → (List.lookup k st1.nodes).isSome := by
        intro k hk
        rw [lookup_isSome_iff_keys, hkeys1]
        rcases Nat.lt_succ_iff_lt_or_eq.mp hk with hk' | rfl
        · exact List.mem_append_left _ ((lookup_isSome_iff_keys).mp (hkeys k hk'))
        · exact List.mem_append_right _ (by simp)
      obtain ⟨st', hfold, hlen'⟩ := ih (n + 1) st1 (by
        intro i hi hne
        have hlt : (fs.get ⟨i, hi⟩).fParentFieldID < n + (i + 1) := by
          apply h (i + 1) (by simpa using Nat.succ_lt_succ hi)
          intro hx
          have hx' : (fs.get ⟨i, hi⟩).fParentFieldID = n + (i + 1) := hx
          exact hne (by rw [hx']; omega)
        omega) hlen1 hkeys1'
      exact ⟨st', hfold, by rw [hlen', List.length_cons]; omega⟩

/-- Claim C5: for every field-description array in which every non-root
field's parent id references a strictly earlier index (roots being exactly
the fields whose parent id equals their own id), tree construction succeeds
and the number of constructed nodes equals the length of the input array. -/
theorem get_field_tree_total (fds : List FieldDescription)
    (h : ∀ i (hi : i < fds.length),
      (fds.get ⟨i, hi⟩).fParentFieldID ≠ i → (fds.get ⟨i, hi⟩).fParentFieldID < i) :
    ∃ st, get_field_tree fds = Except.ok st ∧ st.nodes.length = fds.length := by
  obtain ⟨st, hfold, hlen⟩ := fieldTree_fold_total fds 0 ⟨[], []⟩
    (by intro i hi hne; have := h i hi; rw [Nat.zero_add]; rw [Nat.zero_add] at hne
        exact this hne)
    rfl
    (by intro k hk; exact absurd hk (Nat.not_lt_zero k))
  exact ⟨st, hfold, by rw [hlen, Nat.zero_add]⟩

/-- Witness for C5 at the two-field schema. -/
theorem get_field_tree_total_witness :
    ∃ st, get_field_tree [rootField, childField] = Except.ok st ∧
      st.nodes.length = 2 :=
  get_field_tree_total [rootField, childField] (by
    intro i hi
    match i, hi with
    | 0, _ => intro hne; exact absurd rfl hne
    | 1, _ => intro _; exact Nat.zero_lt_one)

/-! ### Invariants of the constructed tree used by the column mapping -/

theorem mem_updateNode {m : NodeMap} {k : Nat} {f : FieldNode → FieldNode}
    {p : Nat × FieldNode} (hp : p ∈ updateNode m k f) :
    ∃ q ∈ m, (q.1 = k ∧ p = (q.1, f q.2)) ∨ (q.1 ≠ k ∧ p = q) := by
  obtain ⟨q, hq, he⟩ := List.mem_map.mp hp
  by_cases h : q.1 = k
  · exact ⟨q, hq, Or.inl ⟨h, by rw [← he]; simp [h]⟩⟩
  · exact ⟨q, hq, Or.inr ⟨h, by rw [← he]; simp [h]⟩⟩

theorem map_proj_updateNode {γ : Type} (m : NodeMap) (k : Nat)
    (f : FieldNode → FieldNode) (proj : FieldNode → γ)
    (hf : ∀ n, proj (f n) = proj n) :
    (updateNode m k f).map (fun p => (p.1, proj p.2))
      = m.map (fun p => (p.1, proj p.2)) := by
  induction m with
  | nil => rfl
  | cons p tl ih =>
      rw [updateNode_cons]
      by_cases h : p.1 = k <;> simp [h, hf, ih]

theorem fieldTree_fold_inv :
    ∀ (l : List (Nat × FieldDescription)) (st st' : FieldTreeState),
      l.foldlM fieldTreeStep st = Except.ok st' →
      (∀ p ∈ st.nodes, p.2.columns = [] ∧ p.2.alias_columns = []) →
      (∀ p ∈ st'.nodes, p.2.columns = [] ∧ p.2.alias_columns = []) := by
  intro l
  induction l with
  | nil =>
      intro st st' h hst
      rw [List.foldlM_nil] at h
      cases h
      exact hst
  | cons q tl ih =>
      intro st st' h hst
      obtain ⟨fid, fd⟩ := q
      rw [List.foldlM_cons] at h
      cases hstep : fieldTreeStep st (fid, fd) with
      | error e => rw [hstep] at h; cases h
      | ok st1 =>
          rw [hstep] at h
          refine ih st1 st' h ?_
          intro p hp
          simp only [fieldTreeStep] at hstep
          by_cases hpar : fd.fParentFieldID = fid
          · rw [if_pos hpar] at hstep
            cases hstep
            dsimp only at hp
            rcases List.mem_append.mp hp with hold | hnew
            · exact hst p hold
            · rcases List.mem_singleton.mp hnew with rfl
              exact ⟨rfl, rfl⟩
          · rw [if_neg hpar] at hstep
            cases hlk : List.lookup fd.fParentFieldID
                (st.nodes ++ [(fid, _)]) with
            | none => rw [hlk] at hstep; cases hstep
            | some v =>
                rw [hlk] at hstep
                cases hstep
                dsimp only at hp
                obtain ⟨q', hq', hcase⟩ := mem_updateNode hp
                have hq'prop : q'.2.columns = [] ∧ q'.2.alias_columns = [] := by
                  rcases List.mem_append.mp hq' with hold | hnew
                  · exact hst q' hold
                  · rcases List.mem_singleton.mp hnew with rfl
                    exact ⟨rfl, rfl⟩
                rcases hcase with ⟨-, rfl⟩ | ⟨-, rfl⟩
                · exact hq'prop
                · exact hq'prop

/-! ### Column mapping (C6, C7) -/

theorem lookup_mem {m : NodeMap} {k : Nat} {v : FieldNode}
    (h : List.lookup k m = some v) : (k, v) ∈ m := by
  induction m with
  | nil => cases h
  | cons p tl ih =>
      obtain ⟨k', v'⟩ := p
      rw [List.lookup_cons] at h
      by_cases hk : k = k'
      · subst hk
        simp only [beq_self_eq_true] at h
        cases h
        exact List.mem_cons_self _ _
      · have hb : (k == k') = false := by simpa using hk
        rw [hb] at h
        exact List.mem_cons_of_mem _ (ih h)

theorem columnStep_eval (st : NodeMap) (j : Nat) (c : ColumnDescription)
    (r : String × Bool × Bool × Bool) (hr : decode_column_flags c = Except.ok r) :
    columnStep st (j, c) =
      match List.lookup c.fFieldID st with
      | some _ => Except.ok (updateNode st c.fFieldID fun n =>
          { n with columns := n.columns ++
              [{ column_id := j, type := c.fColumnType.replace "ColumnType." "",
                 flags := r.1, rep_index := c.fRepresentationIndex,
                 cluster_info := [] }] })
      | none => Except.error RhyError.StructuralInconsistency := by
  simp only [columnStep]
  rw [hr]
  rfl

theorem columns_fold_ok :
    ∀ (l : List ColumnDescription) (j : Nat) (st : NodeMap),
      (∀ c ∈ l, ∃ r, decode_column_flags c = Except.ok r) →
      (∀ c ∈ l, (List.lookup c.fFieldID st).isSome) →
      (∀ p ∈ st, (∀ ci ∈ p.2.columns, ci.column_id < j) ∧
        List.Pairwise (· < ·) (p.2.columns.map (fun ci => ci.column_id))) →
      ∃ m, (List.enumFrom j l).foldlM columnStep st = Except.ok m ∧
        m.map (fun p => (p.1, p.2.alias_columns))
          = st.map (fun p => (p.1, p.2.alias_columns)) ∧
        (∀ p ∈ m, (∀ ci ∈ p.2.columns, ci.column_id < j + l.length) ∧
          List.Pairwise (· < ·) (p.2.columns.map (fun ci => ci.column_id))) ∧
        (∀ i (hi : i < l.length), ∃ node,
          List.lookup (l.get ⟨i, hi⟩).fFieldID m = some node ∧
          (node.columns.filter (fun ci => ci.column_id == j + i)).length = 1) ∧
        (∀ fid node, List.lookup fid st = some node → ∃ node' suffix,
          List.lookup fid m = some node' ∧
          node'.columns = node.columns ++ suffix ∧
          ∀ ci ∈ suffix, j ≤ ci.column_id) := by
  intro l
  induction l with
  | nil =>
      intro j st _ _ h3
      refine ⟨st, ?_, rfl, ?_, ?_, ?_⟩
      · rw [show List.enumFrom j ([] : List ColumnDescription) = [] from rfl,
          List.foldlM_nil]
        rfl
      · intro p hp
        obtain ⟨hb, hpw⟩ := h3 p hp
        exact ⟨fun ci hci => hb ci hci, hpw⟩
      · intro i hi
        exact absurd hi (by simp)
      · intro fid node hn
        exact ⟨node, [], hn, by simp, by simp⟩
  | cons c l' ih =>
      intro j st h1 h2 h3
      obtain ⟨r, hr⟩ := h1 c (List.mem_cons_self _ _)
      obtain ⟨node0, hnode0⟩ :=
        Option.isSome_iff_exists.mp (h2 c (List.mem_cons_self _ _))
      have hnode0mem : (c.fFieldID, node0) ∈ st := lookup_mem hnode0
      set ci0 : ColumnInfo :=
        { column_id := j, type := c.fColumnType.replace "ColumnType." "",
          flags := r.1, rep_index := c.fRepresentationIndex,
          cluster_info := [] } with hci0
      set g : FieldNode → FieldNode :=
        (fun n => { n with columns := n.columns ++ [ci0] }) with hg
      have hstep : columnStep st (j, c) = Except.ok (updateNode st c.fFieldID g) := by
        rw [columnStep_eval st j c r hr, hnode0]
      have hkeys1 : keysOf (updateNode st c.fFieldID g) = keysOf st :=
        keysOf_updateNode st c.fFieldID g
      obtain ⟨m, hfold, halias, hbound, hidx, hpres⟩ := ih (j + 1) (updateNode st c.fFieldID g)
        (fun c' hc' => h1 c' (List.mem_cons_of_mem _ hc'))
        (by
          intro c' hc'
          rw [lookup_isSome_iff_keys, hkeys1, ← lookup_isSome_iff_keys]
          exact h2 c' (List.mem_cons_of_mem _ hc'))
        (by
          intro p hp
          obtain ⟨q, hq, hcase⟩ := mem_updateNode hp
          obtain ⟨hb, hpw⟩ := h3 q hq
          rcases hcase with ⟨-, rfl⟩ | ⟨-, rfl⟩
          · constructor
            · intro ci hci
              rcases List.mem_append.mp hci with hciold | hcinew
              · exact Nat.lt_succ_of_lt (hb ci hciold)
              · rcases List.mem_singleton.mp hcinew with rfl
                exact Nat.lt_succ_self j
            · show List.Pairwise (· < ·)
                ((q.2.columns ++ [ci0]).map (fun ci => ci.column_id))
              rw [List.map_append]
              rw [List.pairwise_append]
              refine ⟨hpw, by simp, ?_⟩
              intro x hx y hy
              obtain ⟨ci, hci, rfl⟩ := List.mem_map.mp hx
              rcases List.mem_singleton.mp (by simpa using hy) with rfl
              exact hb ci hci
          · exact ⟨fun ci hci => Nat.lt_succ_of_lt (hb ci hci), hpw⟩)
      refine ⟨m, ?_, ?_, ?_, ?_, ?_⟩
      · rw [List.enumFrom_cons, List.foldlM_cons, hstep]
        exact hfold
      · rw [halias]
        exact map_proj_updateNode st c.fFieldID g _ (fun n => rfl)
      · intro p hp
        obtain ⟨hb, hpw⟩ := hbound p hp
        refine ⟨fun ci hci => ?_, hpw⟩
        have := hb ci hci
        rw [List.length_cons]
        omega
      · intro i hi
        match i, hi with
        | 0, _ =>
            have hlk1 : List.lookup c.fFieldID (updateNode st c.fFieldID g)
                = some (g node0) := by
              rw [lookup_updateNode_self, hnode0]
              rfl
            obtain ⟨node', suffix, hl', hcols, hsuf⟩ :=
              hpres c.fFieldID (g node0) hlk1
            refine ⟨node', hl', ?_⟩
            have hb0 : ∀ ci ∈ node0.columns, ci.column_id < j :=
              (h3 (c.fFieldID, node0) hnode0mem).1
            have hcols' : node'.columns = node0.columns ++ [ci0] ++ suffix := hcols
            rw [hcols', List.filter_append, List.filter_append]
            rw [show node0.columns.filter (fun ci => ci.column_id == j + 0) = []
              from List.filter_eq_nil_iff.mpr (fun ci hci => by
                have := hb0 ci hci
                simp only [Nat.add_zero, beq_iff_eq]
                omega)]
            rw [show suffix.filter (fun ci => ci.column_id == j + 0) = []
              from List.filter_eq_nil_iff.mpr (fun ci hci => by
                have := hsuf ci hci
                simp only [Nat.add_zero, beq_iff_eq]
                omega)]
            simp [hci0]
        | i' + 1, hi' =>
            have harith : j + (i' + 1) = j + 1 + i' := by omega
            have hgoal := hidx i' (by simpa using Nat.lt_of_succ_lt_succ hi')
            rw [harith]
            exact hgoal
      · intro fid node hn
        by_cases hfid : fid = c.fFieldID
        · subst hfid
          have hlk1 : List.lookup c.fFieldID (updateNode st c.fFieldID g)
              = some (g node) := by
            rw [lookup_updateNode_self, hn]
            rfl
          obtain ⟨node', suffix', hl', hcols, hsuf⟩ := hpres c.fFieldID (g node) hlk1
          refine ⟨node', ci0 :: suffix', hl', ?_, ?_⟩
          · rw [hcols]
            show node.columns ++ [ci0] ++ suffix' = node.columns ++ (ci0 :: suffix')
            rw [List.append_assoc]
            rfl
          · intro ci hci
            rcases List.mem_cons.mp hci with rfl | hci'
            · exact le_refl j
            · exact le_trans (Nat.le_succ j) (hsuf ci hci')
        · have hlk1 : List.lookup fid (updateNode st c.fFieldID g)
              = some node := by
            rw [lookup_updateNode_ne st c.fFieldID fid g hfid, hn]
          obtain ⟨node', suffix', hl', hcols, hsuf⟩ := hpres fid node hlk1
          exact ⟨node', suffix', hl', hcols,
            fun ci hci => le_trans (Nat.le_succ j) (hsuf ci hci)⟩

theorem columns_fold_err :
    ∀ (l : List ColumnDescription) (j : Nat) (st : NodeMap),
      (∀ c ∈ l, ∃ r, decode_column_flags c = Except.ok r) →
      (∃ c ∈ l, List.lookup c.fFieldID st = none) →
      (List.enumFrom j l).foldlM columnStep st
        = Except.error RhyError.StructuralInconsistency := by
  intro l
  induction l with
  | nil =>
      intro j st _ hex
      obtain ⟨c, hc, -⟩ := hex
      exact absurd hc (by simp)
  | cons c l' ih =>
      intro j st h1 hex
      obtain ⟨r, hr⟩ := h1 c (List.mem_cons_self _ _)
      rw [List.enumFrom_cons, List.foldlM_cons]
      cases hlk : List.lookup c.fFieldID st with
      | none =>
          have hstep : columnStep st (j, c)
              = Except.error RhyError.StructuralInconsistency := by
            rw [columnStep_eval st j c r hr, hlk]
          rw [hstep]
          rfl
      | some node0 =>
          set g : FieldNode → FieldNode :=
            (fun n => { n with columns := n.columns ++
              [{ column_id := j, type := c.fColumnType.replace "ColumnType." "",
                 flags := r.1, rep_index := c.fRepresentationIndex,
                 cluster_info := [] }] }) with hg
          have hstep : columnStep st (j, c)
              = Except.ok (updateNode st c.fFieldID g) := by
            rw [columnStep_eval st j c r hr, hlk]
          rw [hstep]
          show (List.enumFrom (j + 1) l').foldlM columnStep
            (updateNode st c.fFieldID g) = _
          obtain ⟨c', hc', hnone⟩ := hex
          rcases List.mem_cons.mp hc' with rfl | hc''
          · rw [hlk] at hnone
            cases hnone
          · refine ih (j + 1) _ (fun d hd => h1 d (List.mem_cons_of_mem _ hd)) ?_
            refine ⟨c', hc'', ?_⟩
            rw [← Option.not_isSome_iff_eq_none] at hnone ⊢
            intro hsome
            refine hnone ?_
            rw [lookup_isSome_iff_keys, ← keysOf_updateNode st c.fFieldID g,
              ← lookup_isSome_iff_keys]
            exact hsome

theorem except_bind_ok {ε α β : Type} (a : α) (f : α → Except ε β) :
    (Except.ok a : Except ε α) >>= f = f a := rfl

/-- The `{"physical_column_id": ...}` dict built for an alias column. -/
def aliasInfoOf (a : AliasColumnDescription) : AliasColumnInfo :=
  { physical_column_id := a.fPhysicalColumnID }

theorem alias_fold_ok :
    ∀ (al : List AliasColumnDescription) (st : NodeMap),
      (∀ a ∈ al, (List.lookup a.fFieldID st).isSome) →
      ∃ m, al.foldlM aliasStep st = Except.ok m ∧
        (∀ fid, List.lookup fid m = (List.lookup fid st).map (fun n =>
          { n with alias_columns := n.alias_columns ++
              ((al.filter (fun a => a.fFieldID == fid)).map aliasInfoOf) })) ∧
        (∀ p ∈ m, ∃ q ∈ st, p.1 = q.1 ∧ p.2.columns = q.2.columns ∧
          p.2.alias_columns = q.2.alias_columns ++
            ((al.filter (fun a => a.fFieldID == p.1)).map aliasInfoOf)) := by
  intro al
  induction al with
  | nil =>
      intro st _
      refine ⟨st, by rw [List.foldlM_nil]; rfl, ?_, ?_⟩
      · intro fid
        cases hx : List.lookup fid st <;> simp
      · intro p hp
        exact ⟨p, hp, rfl, rfl, by simp⟩
  | cons a al' ih =>
      intro st hsome
      obtain ⟨node0, hnode0⟩ :=
        Option.isSome_iff_exists.mp (hsome a (List.mem_cons_self _ _))
      set g0 : FieldNode → FieldNode :=
        (fun n => { n with alias_columns := n.alias_columns ++
          [{ physical_column_id := a.fPhysicalColumnID }] }) with hg0
      have hstep : aliasStep st a = Except.ok (updateNode st a.fFieldID g0) := by
        unfold aliasStep
        rw [hnode0]
      obtain ⟨m, hfold, hlk, hent⟩ := ih (updateNode st a.fFieldID g0) (by
        intro a' ha'
        rw [lookup_isSome_iff_keys, keysOf_updateNode, ← lookup_isSome_iff_keys]
        exact hsome a' (List.mem_cons_of_mem _ ha'))
      refine ⟨m, ?_, ?_, ?_⟩
      · rw [List.foldlM_cons, hstep]
        exact hfold
      · intro fid
        rw [hlk fid]
        by_cases hf : a.fFieldID = fid
        · subst hf
          rw [lookup_updateNode_self]
          cases hx : List.lookup a.fFieldID st with
          | none => simp
          | some n =>
              have hb : (a.fFieldID == a.fFieldID) = true := by simp
              simp [hg0, aliasInfoOf, List.filter_cons, hb, List.append_assoc]
        · rw [lookup_updateNode_ne st a.fFieldID fid g0 (fun he => hf he.symm)]
          have hb : (a.fFieldID == fid) = false := by simpa using hf
          cases hx : List.lookup fid st with
          | none => simp
          | some n => simp [List.filter_cons, hb]
      · intro p hp
        obtain ⟨q1, hq1, hkeq, hcols, hali⟩ := hent p hp
        obtain ⟨q, hq, hcase⟩ := mem_updateNode hq1
        rcases hcase with ⟨hqk, heq⟩ | ⟨hqk, heq⟩
        · have hkeq' : p.1 = q.1 := by rw [hkeq, heq]
          have hcols' : p.2.columns = q.2.columns := by
            rw [hcols, heq]
          refine ⟨q, hq, hkeq', hcols', ?_⟩
          rw [hali, hkeq', heq]
          have hb : (a.fFieldID == q.1) = true := by simpa using hqk.symm
          simp [hg0, aliasInfoOf, List.filter_cons, hb, List.append_assoc]
        · have hq1st : q1 ∈ st := by rw [heq]; exact hq
          refine ⟨q1, hq1st, hkeq, hcols, ?_⟩
          rw [hali]
          have hb : (a.fFieldID == p.1) = false := by
            rw [hkeq, heq]
            simpa using Ne.symm hqk
          simp [List.filter_cons, hb]

theorem alias_fold_err :
    ∀ (al : List AliasColumnDescription) (st : NodeMap),
      (∃ a ∈ al, List.lookup a.fFieldID st = none) →
      al.foldlM aliasStep st = Except.error RhyError.StructuralInconsistency := by
  intro al
  induction al with
  | nil =>
      intro st hex
      obtain ⟨a, ha, -⟩ := hex
      exact absurd ha (by simp)
  | cons a al' ih =>
      intro st hex
      rw [List.foldlM_cons]
      cases hlk : List.lookup a.fFieldID st with
      | none =>
          have hstep : aliasStep st a = Except.error RhyError.StructuralInconsistency := by
            unfold aliasStep
            rw [hlk]
          rw [hstep]
          rfl
      | some node0 =>
          set g0 : FieldNode → FieldNode :=
            (fun n => { n with alias_columns := n.alias_columns ++
              [{ physical_column_id := a.fPhysicalColumnID }] }) with hg0
          have hstep : aliasStep st a = Except.ok (updateNode st a.fFieldID g0) := by
            unfold aliasStep
            rw [hlk]
          rw [hstep]
          show al'.foldlM aliasStep (updateNode st a.fFieldID g0) = _
          obtain ⟨a', ha', hnone⟩ := hex
          rcases List.mem_cons.mp ha' with rfl | ha''
          · rw [hlk] at hnone
            cases hnone
          · refine ih _ ⟨a', ha'', ?_⟩
            rw [← Option.not_isSome_iff_eq_none] at hnone ⊢
            intro hs
            refine hnone ?_
            rw [lookup_isSome_iff_keys, ← keysOf_updateNode st a.fFieldID g0,
              ← lookup_isSome_iff_keys]
            exact hs

/-- Claim C6: with all columns decodable, a column whose field id is absent
from the id-to-node map makes `map_columns_to_fields` fail with
`StructuralInconsistency`; when every column's field id (and every alias's
field id) is present, mapping succeeds and each column descriptor appears
exactly once, in ascending column-id order, in its field node's column
list. -/
theorem map_columns_resolution (fds : List FieldDescription)
    (cols : List ColumnDescription) (aliases : List AliasColumnDescription)
    (ts : FieldTreeState) (hts : get_field_tree fds = Except.ok ts)
    (hdec : ∀ c ∈ cols, ∃ r, decode_column_flags c = Except.ok r) :
    ((∃ c ∈ cols, List.lookup c.fFieldID ts.nodes = none) →
      map_columns_to_fields cols aliases ts
        = Except.error RhyError.StructuralInconsistency) ∧
    ((∀ c ∈ cols, (List.lookup c.fFieldID ts.nodes).isSome) →
      (∀ a ∈ aliases, (List.lookup a.fFieldID ts.nodes).isSome) →
      ∃ m, map_columns_to_fields cols aliases ts = Except.ok m ∧
        (∀ i (hi : i < cols.length), ∃ node,
          List.lookup (cols.get ⟨i, hi⟩).fFieldID m = some node ∧
          (node.columns.filter (fun ci => ci.column_id == i)).length = 1) ∧
        (∀ p ∈ m, List.Pairwise (· < ·)
          (p.2.columns.map (fun ci => ci.column_id)))) := by
  have hts' : fds.enum.foldlM fieldTreeStep ⟨[], []⟩ = Except.ok ts := hts
  have hinv := fieldTree_fold_inv fds.enum ⟨[], []⟩ ts hts' (by intro p hp; cases hp)
  constructor
  · intro hex
    have herr := columns_fold_err cols 0 ts.nodes hdec hex
    show (cols.enum.foldlM columnStep ts.nodes) >>= _ = _
    rw [show cols.enum = List.enumFrom 0 cols from rfl, herr]
    rfl
  · intro hcols haliases
    obtain ⟨m1, hfold1, halias1, hbound1, hidx1, -⟩ :=
      columns_fold_ok cols 0 ts.nodes hdec hcols (by
        intro p hp
        rw [(hinv p hp).1]
        exact ⟨by simp, by simp⟩)
    have hkeysm1 : keysOf m1 = keysOf ts.nodes := by
      have := congrArg (List.map Prod.fst) halias1
      simpa [keysOf, List.map_map, Function.comp] using this
    obtain ⟨m, hfold2, hlkA, hentA⟩ := alias_fold_ok aliases m1 (by
      intro a ha
      rw [lookup_isSome_iff_keys, hkeysm1, ← lookup_isSome_iff_keys]
      exact haliases a ha)
    refine ⟨m, ?_, ?_, ?_⟩
    · show (cols.enum.foldlM columnStep ts.nodes) >>= _ = _
      rw [show cols.enum = List.enumFrom 0 cols from rfl, hfold1, except_bind_ok,
        hfold2]
    · intro i hi
      obtain ⟨node, hnode, hcount⟩ := hidx1 i hi
      rw [Nat.zero_add] at hcount
      refine ⟨{ node with alias_columns := node.alias_columns ++
          ((aliases.filter (fun a => a.fFieldID == (cols.get ⟨i, hi⟩).fFieldID)).map
            aliasInfoOf) }, ?_, ?_⟩
      · rw [hlkA, hnode]
        rfl
      · exact hcount
    · intro p hp
      obtain ⟨q, hq, -, hcolsEq, -⟩ := hentA p hp
      rw [hcolsEq]
      exact (hbound1 q hq).2

/-- Witness for C6 at the two-field schema with one valid column. -/
theorem map_columns_resolution_witness :
    ∃ m, map_columns_to_fields [exColumn] [] exTree = Except.ok m ∧
      (∀ i (hi : i < [exColumn].length), ∃ node,
        List.lookup ([exColumn].get ⟨i, hi⟩).fFieldID m = some node ∧
        (node.columns.filter (fun ci => ci.column_id == i)).length = 1) ∧
      (∀ p ∈ m, List.Pairwise (· < ·)
        (p.2.columns.map (fun ci => ci.column_id))) :=
  (map_columns_resolution [rootField, childField] [exColumn] [] exTree rfl
    (by
      intro c hc
      rcases List.mem_singleton.mp hc with rfl
      exact ⟨_, rfl⟩)).2
    (by
      intro c hc
      rcases List.mem_singleton.mp hc with rfl
      rfl)
    (by intro a ha; cases ha)

/-- Counterexample to claim C7 as stated: the alias column `danglingAlias`
carries physical column id 999 although there are no column descriptions at
all — the physical id resolves to nothing — yet `map_columns_to_fields`
succeeds and appends the alias descriptor, because the code never validates
the physical column id. -/
theorem alias_physical_id_unchecked_cex :
    get_field_tree [rootField] = Except.ok rootTree ∧
    map_columns_to_fields [] [danglingAlias] rootTree = Except.ok rootTreeAliased :=
  ⟨rfl, rfl⟩

/-- Claim C7, amended: only the alias column's owning (projected) field id is
resolved — mapping fails with `StructuralInconsistency` exactly when that
field id is absent from the tree (the physical column id is stored without
validation) — and when every alias's field id resolves, each node's
alias-column list is exactly the physical ids of the aliases owned by it,
in input order. -/
theorem alias_mapping_field_resolution (fds : List FieldDescription)
    (cols : List ColumnDescription) (aliases : List AliasColumnDescription)
    (ts : FieldTreeState) (hts : get_field_tree fds = Except.ok ts)
    (hdec : ∀ c ∈ cols, ∃ r, decode_column_flags c = Except.ok r)
    (hcols : ∀ c ∈ cols, (List.lookup c.fFieldID ts.nodes).isSome) :
    ((∃ a ∈ aliases, List.lookup a.fFieldID ts.nodes = none) →
      map_columns_to_fields cols aliases ts
        = Except.error RhyError.StructuralInconsistency) ∧
    ((∀ a ∈ aliases, (List.lookup a.fFieldID ts.nodes).isSome) →
      ∃ m, map_columns_to_fields cols aliases ts = Except.ok m ∧
        ∀ p ∈ m, p.2.alias_columns
          = (aliases.filter (fun a => a.fFieldID == p.1)).map aliasInfoOf) := by
  have hts' : fds.enum.foldlM fieldTreeStep ⟨[], []⟩ = Except.ok ts := hts
  have hinv := fieldTree_fold_inv fds.enum ⟨[], []⟩ ts hts' (by intro p hp; cases hp)
  obtain ⟨m1, hfold1, halias1, hbound1, hidx1, -⟩ :=
    columns_fold_ok cols 0 ts.nodes hdec hcols (by
      intro p hp
      rw [(hinv p hp).1]
      exact ⟨by simp, by simp⟩)
  have hkeysm1 : keysOf m1 = keysOf ts.nodes := by
    have := congrArg (List.map Prod.fst) halias1
    simpa [keysOf, List.map_map, Function.comp] using this
  constructor
  · intro hex
    obtain ⟨a, ha, hnone⟩ := hex
    have herr := alias_fold_err aliases m1 ⟨a, ha, by
      rw [← Option.not_isSome_iff_eq_none] at hnone ⊢
      intro hs
      refine hnone ?_
      rw [lookup_isSome_iff_keys, ← hkeysm1, ← lookup_isSome_iff_keys]
      exact hs⟩
    show (cols.enum.foldlM columnStep ts.nodes) >>= _ = _
    rw [show cols.enum = List.enumFrom 0 cols from rfl, hfold1, except_bind_ok,
      herr]
  · intro haliases
    obtain ⟨m, hfold2, hlkA, hentA⟩ := alias_fold_ok aliases m1 (by
      intro a ha
      rw [lookup_isSome_iff_keys, hkeysm1, ← lookup_isSome_iff_keys]
      exact haliases a ha)
    refine ⟨m, ?_, ?_⟩
    · show (cols.enum.foldlM columnStep ts.nodes) >>= _ = _
      rw [show cols.enum = List.enumFrom 0 cols from rfl, hfold1, except_bind_ok,
        hfold2]
    · intro p hp
      obtain ⟨q, hq, hkeq, -, haliEq⟩ := hentA p hp
      have hqmem : (q.1, q.2.alias_columns) ∈ m1.map (fun p => (p.1, p.2.alias_columns)) :=
        List.mem_map.mpr ⟨q, hq, rfl⟩
      rw [halias1] at hqmem
      obtain ⟨t, ht, hteq⟩ := List.mem_map.mp hqmem
      have htalias : q.2.alias_columns = [] := by
        have := (hinv t ht).2
        have h2 := congrArg Prod.snd hteq
        simp only at h2
        rw [← h2, this]
      rw [haliEq, htalias, hkeq]
      rfl

/-- Witness for the amended C7: the alias with a dangling physical column id
but a valid field id is appended (and mapping succeeds). -/
theorem alias_mapping_field_resolution_witness :
    ∃ m, map_columns_to_fields [] [danglingAlias] rootTree = Except.ok m ∧
      ∀ p ∈ m, p.2.alias_columns
        = ([danglingAlias].filter (fun a => a.fFieldID == p.1)).map aliasInfoOf :=
  (alias_mapping_field_resolution [rootField] [] [danglingAlias] rootTree rfl
    (by intro c hc; cases hc) (by intro c hc; cases hc)).2
    (by
      intro a ha
      rcases List.mem_singleton.mp ha with rfl
      rfl)

/-- Claim C10: when the list of page-list envelopes is empty,
`get_field_to_page_map` returns the empty mapping — discarding the enriched
field/column tree built by the earlier stages — and raises no error. -/
theorem empty_pagelist_returns_empty (schema : SchemaDescription)
    (ts : FieldTreeState) (m : NodeMap)
    (h1 : get_field_tree schema.fieldDescriptions = Except.ok ts)
    (h2 : map_columns_to_fields schema.columnDescriptions
      schema.aliasColumnDescriptions ts = Except.ok m) :
    get_field_to_page_map schema [] = Except.ok [] := by
  show (get_field_tree schema.fieldDescriptions) >>= _ = _
  rw [h1, except_bind_ok, h2, except_bind_ok]
  rfl

/-- Witness for C10: the single-root schema has a nonempty enriched tree and
still yields the empty mapping. -/
theorem empty_pagelist_returns_empty_witness :
    get_field_to_page_map exSchema [] = Except.ok [] :=
  empty_pagelist_returns_empty exSchema rootTree rootTreeMapped rfl rfl

